import Mathlib

/-!
Verification of the HTML extraction/transformation core of the `auteur` blog
generator (`src/html_tools.py`).

Strings are modelled as `List Char` (`Str`).  Python's `re.search` is only used
in the source with patterns of the shape `A.+?B` for literal `A`, `B`
(optionally with `re.DOTALL`), plus one pattern with `\s*` pieces for the
publication-date marker; the engine below implements exactly those shapes with
Python's leftmost, non-greedy semantics.  Fallible Python code (raised
exceptions) is modelled with `Except PyErr`.

External collaborators (`file_tools.read_complete_file`,
`read_listing_file`, `get_configuration`, `datetime.date.today`) are passed as
explicit parameters; `file_tools.find_article_index` is not under `src/` and is
modelled from the specification (see its doc comment).
-/

set_option maxRecDepth 10000

abbrev Str := List Char

/-- Python whitespace for `str`: the exact character set accepted by `\s`
in `re` patterns, by `str.strip()` and by `str.isspace()` (CPython's
`Py_UNICODE_ISSPACE`): the six ASCII whitespace characters together with
U+001C-001F, U+0085, U+00A0, U+1680, U+2000-200A, U+2028, U+2029, U+202F,
U+205F and U+3000. -/
def pySpace (c : Char) : Bool :=
  c = ' ' || c = '\t' || c = '\n' || c = '\r' || c = '\x0b' || c = '\x0c'
    || (0x1c ≤ c.toNat && c.toNat ≤ 0x1f) || c.toNat = 0x85 || c.toNat = 0xa0
    || c.toNat = 0x1680 || (0x2000 ≤ c.toNat && c.toNat ≤ 0x200a)
    || c.toNat = 0x2028 || c.toNat = 0x2029 || c.toNat = 0x202f
    || c.toNat = 0x205f || c.toNat = 0x3000

/-- The literal `pat` occurs in `s` starting at index `i`. -/
def litAt (pat s : Str) (i : Nat) : Bool :=
  pat.isPrefixOf (s.drop i)

/-- First index `k` with `i ≤ k < i + fuel` such that `p k`; `none` otherwise. -/
def firstSuch (p : Nat → Bool) : Nat → Nat → Option Nat
  | _, 0 => none
  | i, fuel + 1 => if p i then some i else firstSuch p (i + 1) fuel

/-- What the regex `.` accepts: any character when `re.DOTALL` is set,
any character except a newline otherwise. -/
def dotOk (dotall : Bool) (c : Char) : Bool :=
  dotall || !(c = '\n')

/-- Every character of `s` in the half-open index range `[m, j)` is accepted
by the regex `.` (the span consumed by `.+?`). -/
def runOk (dotall : Bool) (s : Str) (m j : Nat) : Bool :=
  ((s.drop m).take (j - m)).all (dotOk dotall)

/-- Search end position of `re.search(A.+?B)` for a match attempt starting at `i`:
the least `j ≥ i + |A| + 1` where the literal `B` starts, with every
character consumed by `.+?` accepted by `.`.  Non-greedy: least such `j`. -/
def matchEnd (a b : Str) (dotall : Bool) (s : Str) (i : Nat) : Option Nat :=
  firstSuch (fun j => litAt b s j && runOk dotall s (i + a.length) j)
    (i + a.length + 1) s.length

/-- The pattern `A.+?B` matches in `s` with `A` at index `i` and `B` at
index `j` (so the whole match spans `[i, j + |B|)`). -/
def MatchAt (a b : Str) (dotall : Bool) (s : Str) (i j : Nat) : Prop :=
  litAt a s i = true ∧ litAt b s j = true ∧ i + a.length + 1 ≤ j ∧
    runOk dotall s (i + a.length) j = true

/-- Full `re.search` for a pattern `A.+?B`: leftmost match start (scanning start
positions left to right), then least end.  Returns the span `(start, stop)`
of `match.group(0)` as half-open indices, or `none`. -/
def reSearchPos (a b : Str) (dotall : Bool) (s : Str) : Option (Nat × Nat) :=
  (firstSuch (fun i => litAt a s i && (matchEnd a b dotall s i).isSome)
      0 (s.length + 1)).bind
    (fun i => (matchEnd a b dotall s i).map (fun j => (i, j + b.length)))

/-- Matched substring `re.search(A.+?B).group(0)`, or `none`. -/
def reSearch (a b : Str) (dotall : Bool) (s : Str) : Option Str :=
  (reSearchPos a b dotall s).map (fun ij => (s.drop ij.1).take (ij.2 - ij.1))

/-- Python `s.find(pat)` restricted to found-or-none: index of the first
occurrence of the (nonempty) literal `pat` in `s`. -/
def firstOccurrence (pat s : Str) : Option Nat :=
  firstSuch (fun i => litAt pat s i) 0 (s.length + 1)

/-- Python `s.replace(old, new)` for a nonempty `old`: replace every
non-overlapping occurrence, scanning left to right, continuing after the
end of each occurrence.  `fuel` bounds the recursion; `s.length + 1` is
always enough because each step removes at least one character. -/
def replaceAllF (old new : Str) : Nat → Str → Str
  | 0, s => s
  | fuel + 1, s =>
    match firstOccurrence old s with
    | none => s
    | some i => s.take i ++ new ++ replaceAllF old new fuel (s.drop (i + old.length))

def replaceAll (old new s : Str) : Str :=
  replaceAllF old new (s.length + 1) s

/-- Python `re.sub(A.+?B, '', s)`: delete every non-overlapping match of
`A.+?B`, scanning left to right, continuing after the end of each match. -/
def reSubAllEmptyF (a b : Str) (dotall : Bool) : Nat → Str → Str
  | 0, s => s
  | fuel + 1, s =>
    match reSearchPos a b dotall s with
    | none => s
    | some ij => s.take ij.1 ++ reSubAllEmptyF a b dotall fuel (s.drop ij.2)

def reSubAllEmpty (a b : Str) (dotall : Bool) (s : Str) : Str :=
  reSubAllEmptyF a b dotall (s.length + 1) s

/-- Python `s.split(sep)` for a nonempty separator. -/
def pySplitF (sep : Str) : Nat → Str → List Str
  | 0, s => [s]
  | fuel + 1, s =>
    match firstOccurrence sep s with
    | none => [s]
    | some i => s.take i :: pySplitF sep fuel (s.drop (i + sep.length))

def pySplit (sep s : Str) : List Str :=
  pySplitF sep (s.length + 1) s

/-- Python `s.strip()` (whitespace at both ends). -/
def pyStrip (s : Str) : Str :=
  ((s.dropWhile pySpace).reverse.dropWhile pySpace).reverse

/-- Path segments of a POSIX path string as `pathlib` keeps them: split on
`/`, dropping empty segments and `.` segments (`..` segments are kept). -/
def pathSegments (t : Str) : List Str :=
  (pySplit ['/'] t).filter (fun seg => !(seg = []) && !(seg = ['.']))

/-- Join under the parent directory: `str(PurePosixPath('../') / t)` as
`pathlib` computes it.  A relative `t` yields `..` followed by `t`'s
segments joined with `/` (so `.` segments, duplicate and trailing slashes
collapse, and a `t` without real segments leaves `..`); an absolute `t`
replaces the `..` entirely, with `pathlib`'s root rule: exactly two leading
slashes keep the `//` root, any other number collapses to `/`. -/
def pathJoinParent (t : Str) : Str :=
  if t.head? = some '/' then
    let root : Str :=
      if t.take 2 = ['/', '/'] ∧ t.take 3 ≠ ['/', '/', '/'] then ['/', '/']
      else ['/']
    root ++ List.intercalate ['/'] (pathSegments t)
  else
    List.intercalate ['/'] (("..".toList) :: pathSegments t)

/-- Position right after the maximal whitespace run starting at `k` (the
regex `\s*`, matched greedily). -/
def wsEnd (s : Str) (k : Nat) : Nat :=
  k + ((s.drop k).takeWhile pySpace).length

/-- Character of `s` at index `k`, if in range. -/
def charAt? (s : Str) (k : Nat) : Option Char :=
  (s.drop k).head?

/-- Match attempt of `re.search('<Published\s*=\s*.+?>', html)` at start
position `i`: the literal `<Published`, greedy whitespace, `=`, greedy
whitespace, then a non-greedy `.+?` up to the first `>` at distance at least
one.  Returns the index of the closing `>` (the match is `s[i, j+1)`), or
`none`.  Backtracking of the first `\s*` is vacuous (any character given
back is whitespace while the `=` that must follow is not); backtracking of
the second `\s*` matters in exactly one situation, which Python reaches
after the greedy attempt fails: when the character right after the
whitespace run is already the closing `>`, giving one whitespace character
back lets `.+?` consume it, provided that character is not a newline and
the run is nonempty.  That is the fallback branch below. -/
def pubParseEnd (s : Str) (i : Nat) : Option Nat :=
  if litAt ("<Published".toList) s i then
    let k1 := wsEnd s (i + 10)
    match charAt? s k1 with
    | some '=' =>
      let k2 := wsEnd s (k1 + 1)
      match firstSuch (fun j => (decide (charAt? s j = some '>')) && runOk false s k2 j)
          (k2 + 1) s.length with
      | some j => some j
      | none =>
        if charAt? s k2 = some '>' ∧ k1 + 2 ≤ k2 ∧ charAt? s (k2 - 1) ≠ some '\n'
        then some k2 else none
    | _ => none
  else none

/-- Translation of `extract_pub_date` (src/html_tools.py lines 44-59):
`re.search('<Published\s*=\s*.+?>', html)`, returning `group(0)` of the
leftmost match, or `None` (the Python function falls off the end). -/
def extract_pub_date (html : Str) : Option Str :=
  (firstSuch (fun i => (pubParseEnd html i).isSome) 0 (html.length + 1)).bind
    (fun i => (pubParseEnd html i).map (fun j => (html.drop i).take (j + 1 - i)))

/-- Python exceptions raised (or raisable) by the translated code;
`valueError` carries the message string. -/
inductive PyErr where
  | valueError : String → PyErr
  | keyError : Str → PyErr
  | indexError : PyErr
  | attributeError : PyErr
  deriving DecidableEq, Repr

/-- Modelled from the spec: `file_tools.Article` (spec section 3) — one blog
post record: `source`, `target`, nullable `pub_date` with a derived
human-readable rendering, `html`, `markdown`, mutable `title`, and the path
of the post's HTML file (`html_path`, read by `extract_article_preview`). -/
structure Article where
  source : Str
  target : Str
  pub_date : Option Str
  human_readable_pub_date : Str
  html : Str
  markdown : Str
  title : Str
  html_path : Str
  deriving DecidableEq, Repr

instance : Inhabited Article :=
  ⟨⟨[], [], none, [], [], [], [], []⟩⟩

/-- Translation of `ArticlePreview` (src/html_tools.py lines 332-348): an
`Article` (all base fields copied by the constructor) plus `intro_text` and
`first_photo`. -/
structure ArticlePreview extends Article where
  intro_text : Str
  first_photo : Option Str
  deriving DecidableEq, Repr

/-- Modelled from the spec: the configuration collaborator's fields (spec
section 6). -/
structure Configuration where
  blog_title : Str
  blog_subtitle : Str
  owner : Str
  email_address : Str
  rss_feed_path : Str
  style_sheet : Str
  root_url : Str
  deriving DecidableEq, Repr

/-- Modelled from the spec: `datetime.date.today()` as consumed by the
renderers — its `strftime('%B %d, %Y')` and `strftime('%Y')` renderings. -/
structure Today where
  todayLong : Str
  currentYear : Str
  deriving DecidableEq, Repr

def lbrace : Char := Char.ofNat 123

def rbrace : Char := Char.ofNat 125

def singleOpenBraceMsg : String := "Single open brace encountered in format string"

def singleCloseBraceMsg : String := "Single close brace encountered in format string"

def formatFuelMsg : String := "format fuel exhausted"

def lookupKw : List (Str × Str) → Str → Option Str
  | [], _ => none
  | (k, v) :: rest, name => if k = name then some v else lookupKw rest name

/-- Python `str.format(**kwargs)` restricted to the simple named placeholders
the page templates use (spec section 6): a name between braces is replaced
by its value (values are not re-scanned), doubled braces escape, an unknown
name raises `KeyError`, and a lone brace raises `ValueError`.  `fuel` only
bounds the recursion; `s.length + 1` is always enough because every step
consumes at least one character. -/
def pyFormatF (kw : List (Str × Str)) : Nat → Str → Except PyErr Str
  | 0, _ => .error (.valueError formatFuelMsg)
  | _ + 1, [] => .ok []
  | fuel + 1, c :: rest =>
    if c = lbrace then
      match rest with
      | [] => .error (.valueError singleOpenBraceMsg)
      | d :: rest2 =>
        if d = lbrace then (pyFormatF kw fuel rest2).map (fun t => c :: t)
        else
          match (d :: rest2).dropWhile (fun x => !(x = rbrace)) with
          | [] => .error (.valueError singleOpenBraceMsg)
          | _ :: after2 =>
            match lookupKw kw ((d :: rest2).takeWhile (fun x => !(x = rbrace))) with
            | some v => (pyFormatF kw fuel after2).map (fun t => v ++ t)
            | none => .error (.keyError ((d :: rest2).takeWhile (fun x => !(x = rbrace))))
    else if c = rbrace then
      match rest with
      | d :: rest2 =>
        if d = rbrace then (pyFormatF kw fuel rest2).map (fun t => c :: t)
        else .error (.valueError singleCloseBraceMsg)
      | [] => .error (.valueError singleCloseBraceMsg)
    else (pyFormatF kw fuel rest).map (fun t => c :: t)

def pyFormat (kw : List (Str × Str)) (s : Str) : Except PyErr Str :=
  pyFormatF kw (s.length + 1) s

/-- Application of `_ARTICLE_TITLE_TEMPLATE` (src/html_tools.py line 29): the
template is a module constant and all three fields are always supplied, so
its `.format` call is this concatenation. -/
def applyArticleTitleTemplate (article_title article_subtitle article_path : Str) : Str :=
  "<h2 class=\"article_title\"><a href=\"".toList ++ article_path ++ "\">".toList
    ++ article_title ++ "</a><p class=\"article_subtitle\">".toList
    ++ article_subtitle ++ "</p></h2>".toList

/-- Application of `_CONTINUE_READING_TEMPLATE` (line 32). -/
def applyContinueReadingTemplate (article_path : Str) : Str :=
  "<a href=\"".toList ++ article_path ++ "\">Continue reading...</a>".toList

/-- Application of `_ARTICLE_PREVIEW_TEMPLATE` (line 35). -/
def applyArticlePreviewTemplate (article_title article_photo article_content : Str) : Str :=
  "<section class=\"article_preview\">\n".toList ++ article_title ++ "\n".toList
    ++ article_photo ++ "\n".toList ++ article_content ++ "\n</section>\n".toList

/-- Application of `_ARTICLE_CONTENT_TEMPLATE` (line 38). -/
def applyArticleContentTemplate (article_content : Str) : Str :=
  "<section class=\"article_content\">\n".toList ++ article_content
    ++ "\n</section>".toList

/-- Application of `_NAV_BAR_TEMPLATE` (line 41). -/
def applyNavBarTemplate (previous_article : Str) : Str :=
  "<a href=\"".toList ++ previous_article
    ++ "\">Previous</a> <a href=\"../\">Home</a>".toList

/-- Fragment-collecting loop of `extract_article_preview` (src/html_tools.py
lines 78-84): starting from `['']`, scan the `split('<p>')` fragments; stop
once more than two entries have been collected; keep a fragment when its
stripped form does not start with `<`; `paragraph.strip()[0]` raises
`IndexError` when the stripped fragment is empty. -/
def collect_intro : List Str → List Str → Except PyErr (List Str)
  | acc, [] => .ok acc
  | acc, para :: rest =>
    if 2 < acc.length then .ok acc
    else
      match pyStrip para with
      | [] => .error .indexError
      | c :: _ =>
        if c = '<' then collect_intro acc rest
        else collect_intro (acc ++ [para]) rest

def substringNotFoundMsg : String := "substring not found"

/-- Trailing-tag strip of `extract_article_preview` (lines 88-92):
`intro_text[::-1].index('>p/<')` locates the first occurrence of the
reversed closing marker in the reversed string (Python `str.index` raises
`ValueError` when absent), and `intro_text[:-(k+4)]` truncates from the last
`</p>` onward. -/
def strip_trailing_tag (intro_text : Str) : Except PyErr Str :=
  match firstOccurrence (">p/<".toList) intro_text.reverse with
  | none => .error (.valueError substringNotFoundMsg)
  | some k => .ok (intro_text.take (intro_text.length - (k + 4)))

/-- Translation of `extract_article_preview` (src/html_tools.py lines
62-104).  `rf` is the external `read_complete_file` collaborator (maps a
path to file contents). -/
def extract_article_preview (rf : Str → Str) (article : Article) :
    Except PyErr ArticlePreview :=
  let article_text := rf article.html_path
  match collect_intro [[]] (pySplit ("<p>".toList) article_text) with
  | .error e => .error e
  | .ok intro_text_list =>
    match strip_trailing_tag (List.intercalate ("<p>".toList) intro_text_list) with
    | .error e => .error e
    | .ok intro_text =>
      .ok { toArticle := article
            intro_text := intro_text
            first_photo := reSearch ("<figure>".toList) "</figure>".toList true article_text }

/-- Translation of `generate_preview_html` (lines 107-135).  `first_photo`
is tested with Python truthiness: `None` and `''` both give an empty photo
slot. -/
def generate_preview_html (p : ArticlePreview) : Str :=
  let article_title_html :=
    applyArticleTitleTemplate p.title p.human_readable_pub_date p.target
  let article_photo_html :=
    match p.first_photo with
    | some ph => if ph = [] then [] else ph
    | none => []
  let article_content :=
    p.intro_text ++ " ".toList ++ applyContinueReadingTemplate p.target ++ "</p>".toList
  applyArticlePreviewTemplate article_title_html article_photo_html article_content

/-- Modelled from the spec: `file_tools.find_article_index` is not under
`src/`; spec section 6 specifies a listing lookup whose identity is matching
`source`/`target`, returning an index or not-found (the Python function
raises `ValueError` when absent, which `generate_post` catches). -/
def find_article_index (article : Article) : List Article → Option Nat
  | [] => none
  | b :: rest =>
    if b.source = article.source ∧ b.target = article.target then some 0
    else (find_article_index article rest).map (· + 1)

/-- Previous-post link computation of `generate_post` (lines 257-281): when
the article is absent from the listing, link to the last entry (empty when
the listing is empty); when present at index `i`, link to entry `i - 1`
(empty at index 0; Python's `previous_article_index >= 0` over `int` is
`1 ≤ i` here).  The `listing[i-1]` indexing is in range whenever taken. -/
def previous_article_link (article : Article) (listing : List Article) : Str :=
  match find_article_index article listing with
  | none =>
    match listing.getLast? with
    | some lastArt => pathJoinParent lastArt.target
    | none => []
  | some article_index =>
    if 1 ≤ article_index then
      pathJoinParent ((listing[article_index - 1]?.getD default).target)
    else []

/-- Title-heading search of `generate_post` (lines 213-216):
`<h1>.+?</h1>` first, then `<h2 class="article_title">.+?</a>`. -/
def titleMatch (html : Str) : Option Str :=
  match reSearch ("<h1>".toList) "</h1>".toList false html with
  | some m => some m
  | none => reSearch ("<h2 class=\"article_title\">".toList) "</a>".toList false html

def argHtmlMsg : String := "Argument `html` must have an `h1` or `h2` tag."

/-- Title cleanup of `generate_post` (lines 222-225): drop the wrapper tags
`<h1>`, `</h1>`, `<h2 class="article_title">`, every embedded
`<a href="...">` (via `re.sub`) and every `</a>`. -/
def stripTitle (m : Str) : Str :=
  replaceAll ("</a>".toList) []
    (reSubAllEmpty ("<a href=\"".toList) "\">".toList false
      (replaceAll ("<h2 class=\"article_title\">".toList) []
        (replaceAll ("</h1>".toList) []
          (replaceAll ("<h1>".toList) [] m))))

/-- Keyword arguments of the final `template.format(...)` call of
`generate_post` (lines 296-308). -/
def postKwargs (cfg : Configuration) (today : Today)
    (nav_bar article_title article_content : Str) : List (Str × Str) :=
  [("nav_bar".toList, nav_bar),
   ("article_title".toList, article_title),
   ("article_content".toList, article_content),
   ("last_updated".toList, "Last updated: ".toList ++ today.todayLong),
   ("current_year".toList, today.currentYear),
   ("blog_title".toList, cfg.blog_title),
   ("blog_subtitle".toList, cfg.blog_subtitle),
   ("owner".toList, cfg.owner),
   ("email_address".toList, cfg.email_address),
   ("rss_feed_path".toList, cfg.rss_feed_path),
   ("style_sheet".toList, cfg.style_sheet),
   ("root_url".toList, cfg.root_url),
   ("home_page_link".toList, "../".toList)]

/-- Translation of `generate_post` (src/html_tools.py lines 199-310).  The
listing and page template stand for the values read by the external
`read_listing_file` / `read_complete_file` collaborators.  Returns the
article as the call leaves it (its `title` field is assigned once a heading
is found, before any later failure could occur) together with the returned
HTML string or the raised exception. -/
def generate_post (cfg : Configuration) (today : Today) (listing : List Article)
    (template : Str) (article : Article) : Article × Except PyErr Str :=
  match titleMatch article.html with
  | none => (article, .error (.valueError argHtmlMsg))
  | some m =>
    let article_title := stripTitle m
    let pub_date_full := extract_pub_date article.html
    let article_title_html :=
      applyArticleTitleTemplate article_title article.human_readable_pub_date []
    let html1 := replaceAll m []
      (reSubAllEmpty ("<h2".toList) "</h2>".toList false article.html)
    let html2 := pyStrip html1
    let html3 :=
      match pub_date_full with
      | some pd => replaceAll pd [] html2
      | none => html2
    let article_content := article_title_html ++ "\n".toList ++ html3
    let article_content2 :=
      match pySplit ("\n".toList) article_content with
      | [] => article_content
      | l0 :: restLines =>
        match l0 with
        | [] => List.intercalate ("\n".toList) restLines
        | c :: _ =>
          if pySpace c then List.intercalate ("\n".toList) restLines
          else article_content
    let previous_article := previous_article_link article listing
    let nav_bar0 := applyNavBarTemplate previous_article
    let nav_bar :=
      if previous_article = [] then
        replaceAll ("<a href=\"\">Previous</a>".toList) [] nav_bar0
      else nav_bar0
    ({ article with title := article_title },
     pyFormat (postKwargs cfg today nav_bar article_title
       (applyArticleContentTemplate article_content2)) template)

/-- Aggregation loop of `generate_landing_page` (lines 156-160): the
previews concatenated, each followed by a blank line. -/
def landing_aggregate (previews : List ArticlePreview) : Str :=
  previews.foldl (fun acc p => acc ++ generate_preview_html p ++ "\n\n".toList) []

/-- Generator body of `create_article_previews` (line 329), consumed in
order after the in-place reversal; the first extraction failure propagates
to the consumer. -/
def previews_of (rf : Str → Str) : List Article → Except PyErr (List ArticlePreview)
  | [] => .ok []
  | a :: rest =>
    match extract_article_preview rf a with
    | .error e => .error e
    | .ok p =>
      match previews_of rf rest with
      | .error e => .error e
      | .ok ps => .ok (p :: ps)

/-- Translation of `create_article_previews` (lines 313-329).
`listing.reverse()` reverses the freshly read listing **in place**; the
first component is the listing object's state after the call, the second
the fully consumed generator. -/
def create_article_previews (rf : Str → Str) (listing : List Article) :
    List Article × Except PyErr (List ArticlePreview) :=
  (listing.reverse, previews_of rf listing.reverse)

/-- Keyword arguments of the `template.format` call of
`generate_landing_page` (lines 167-179): empty nav bar and empty
root-relative home link. -/
def landingKwargs (cfg : Configuration) (today : Today) (aggregate : Str) :
    List (Str × Str) :=
  [("article_title".toList, cfg.blog_title),
   ("nav_bar".toList, []),
   ("article_content".toList, aggregate),
   ("last_updated".toList, "Last updated: ".toList ++ today.todayLong),
   ("current_year".toList, today.currentYear),
   ("blog_title".toList, cfg.blog_title),
   ("blog_subtitle".toList, cfg.blog_subtitle),
   ("owner".toList, cfg.owner),
   ("email_address".toList, cfg.email_address),
   ("rss_feed_path".toList, cfg.rss_feed_path),
   ("style_sheet".toList, cfg.style_sheet),
   ("root_url".toList, cfg.root_url),
   ("home_page_link".toList, [])]

/-- Translation of `generate_landing_page` (src/html_tools.py lines
138-181). -/
def generate_landing_page (rf : Str → Str) (cfg : Configuration) (today : Today)
    (listing : List Article) (template : Str) : Except PyErr Str :=
  match (create_article_previews rf listing).2 with
  | .error e => .error e
  | .ok previews =>
    pyFormat (landingKwargs cfg today (landing_aggregate previews)) template

/-- Translation of `preprocess_raw_html` (src/html_tools.py lines 184-196):
`re.search('<article>.+?</section>', raw_html, re.DOTALL)`, then
`.group(0)` without a guard — `None(dot)group` raises `AttributeError` —
then four literal tag removals over the matched region. -/
def removeArticleTags (article_content : Str) : Str :=
  replaceAll ("<section class=\"article_content\">".toList) []
    (replaceAll ("<section class=\"main_content\">".toList) []
      (replaceAll ("</section>".toList) []
        (replaceAll ("<article>".toList) [] article_content)))

def preprocess_raw_html (raw_html : Str) : Except PyErr Str :=
  match reSearch ("<article>".toList) "</section>".toList true raw_html with
  | none => .error .attributeError
  | some article_content => .ok (removeArticleTags article_content)

/-- Concrete sample configuration used by witnesses. -/
def cfgS : Configuration :=
  ⟨"T".toList, "S".toList, "O".toList, "E".toList, "R".toList, "C".toList, "U".toList⟩

/-- Concrete sample date used by witnesses. -/
def todayS : Today := ⟨"June 01, 2016".toList, "2016".toList⟩

/-- Concrete sample article (oldest) used by witnesses. -/
def artAS : Article :=
  ⟨"a.md".toList, "a.html".toList, none, "May 01".toList,
   "<h1>Alpha</h1>\n<p>one</p>".toList, [], [], "a".toList⟩

/-- Concrete sample article (middle) used by witnesses. -/
def artBS : Article :=
  ⟨"b.md".toList, "b.html".toList, none, "May 02".toList,
   "<h1>Beta</h1>\n<p>two</p>".toList, [], [], "b".toList⟩

/-- Concrete sample article (newest) used by witnesses. -/
def artCS : Article :=
  ⟨"c.md".toList, "c.html".toList, none, "May 03".toList,
   "<h1>Gamma</h1>\n<p>three</p>".toList, [], [], "c".toList⟩

/-- Concrete sample article whose target carries a `.` path segment. -/
def artDS : Article :=
  ⟨"d.md".toList, ("p/./q.html".toList), none, "May 07".toList,
   "<h1>Delta</h1>".toList, [], [], "d".toList⟩

/-- Concrete sample article not present in the sample listing. -/
def artNS : Article :=
  ⟨"n.md".toList, "n.html".toList, none, "May 04".toList,
   "<h1>New</h1>".toList, [], [], "n".toList⟩

/-- Concrete sample page template used by witnesses. -/
def tmplS : Str := "{nav_bar}|{article_title}|{article_content}".toList

/-- Concrete sample article with no title heading in its HTML. -/
def artNoHeadS : Article :=
  ⟨"x.md".toList, "x.html".toList, none, "May 05".toList,
   "no heading here".toList, [], [], "x".toList⟩

/-- Concrete sample article whose heading carries an embedded `<em>` tag. -/
def artES : Article :=
  ⟨"e.md".toList, "e.html".toList, none, "May 06".toList,
   "<h1>A <em>b</em></h1>".toList, [], [], "e".toList⟩

/-- Occurrence of a publication marker in the sense of the spec's
`<Published = X>` form, starting at position `i` of `s` with the closing `>`
at position `j`: the case-sensitive keyword `<Published`, a whitespace run,
`=`, a whitespace run, then a value of at least one character containing no
newline, then `>`.  The split between the second whitespace run and the
value need not be unique; the predicate quantifies over some split. -/
def PubMarkerAt (s : Str) (i j : Nat) : Prop :=
  ∃ w1 w2 v : Str,
    litAt ("<Published".toList ++ (w1 ++ (['='] ++ (w2 ++ (v ++ ['>']))))) s i = true ∧
    i + 10 + w1.length + 1 + w2.length + v.length = j ∧
    w1.all pySpace = true ∧ w2.all pySpace = true ∧
    v ≠ [] ∧ '\n' ∉ v

-- Theorems

theorem firstSuch_none {p : Nat → Bool} :
    ∀ {fuel i : Nat}, firstSuch p i fuel = none →
      ∀ k, i ≤ k → k < i + fuel → p k = false := by
  intro fuel
  induction fuel with
  | zero => intro i _ k hik hk; omega
  | succ n ih =>
    intro i h k hik hk
    by_cases hp : p i
    · simp [firstSuch, hp] at h
    · simp only [firstSuch, hp, if_false] at h
      rcases Nat.eq_or_lt_of_le hik with rfl | hlt
      · exact Bool.of_not_eq_true hp
      · exact ih h k hlt (by omega)

theorem firstSuch_none_of {p : Nat → Bool} :
    ∀ {fuel i : Nat}, (∀ k, i ≤ k → k < i + fuel → p k = false) →
      firstSuch p i fuel = none := by
  intro fuel
  induction fuel with
  | zero => intro i _; rfl
  | succ n ih =>
    intro i h
    have hpi : p i = false := h i (Nat.le_refl i) (by omega)
    rw [firstSuch, if_neg (by simp [hpi])]
    exact ih fun k hik hk => h k (by omega) (by omega)

theorem firstSuch_some {p : Nat → Bool} :
    ∀ {fuel i j : Nat}, firstSuch p i fuel = some j →
      i ≤ j ∧ j < i + fuel ∧ p j = true ∧ ∀ k, i ≤ k → k < j → p k = false := by
  intro fuel
  induction fuel with
  | zero => intro i j h; simp [firstSuch] at h
  | succ n ih =>
    intro i j h
    by_cases hp : p i
    · simp only [firstSuch, hp, if_true, Option.some.injEq] at h
      subst h
      exact ⟨Nat.le_refl _, by omega, hp, fun k hik hk => by omega⟩
    · simp only [firstSuch, hp, if_false] at h
      obtain ⟨h1, h2, h3, h4⟩ := ih h
      refine ⟨by omega, by omega, h3, fun k hik hk => ?_⟩
      rcases Nat.eq_or_lt_of_le hik with rfl | hlt
      · exact Bool.of_not_eq_true hp
      · exact h4 k hlt hk

theorem firstSuch_isSome {p : Nat → Bool} {fuel i k : Nat}
    (hik : i ≤ k) (hk : k < i + fuel) (hp : p k = true) :
    (firstSuch p i fuel).isSome = true := by
  cases h : firstSuch p i fuel with
  | some j => rfl
  | none => exact absurd hp (by simp [firstSuch_none h k hik hk])

theorem litAt_bound {pat s : Str} {i : Nat} (hpat : pat ≠ [])
    (h : litAt pat s i = true) : i + pat.length ≤ s.length := by
  have hpre : pat <+: s.drop i := by
    simpa [litAt] using h
  have hlen : pat.length ≤ (s.drop i).length := hpre.length_le
  rw [List.length_drop] at hlen
  have hne : pat.length ≠ 0 := fun h0 => hpat (List.eq_nil_of_length_eq_zero h0)
  omega

theorem runOk_dotall (s : Str) (m j : Nat) : runOk true s m j = true := by
  simp [runOk, dotOk]

theorem matchEnd_some {a b : Str} {dotall : Bool} {s : Str} {i j : Nat}
    (ha : litAt a s i = true) (h : matchEnd a b dotall s i = some j) :
    MatchAt a b dotall s i j ∧ ∀ j', MatchAt a b dotall s i j' → j ≤ j' := by
  obtain ⟨h1, _, h3, h4⟩ := firstSuch_some h
  rw [Bool.and_eq_true] at h3
  refine ⟨⟨ha, h3.1, h1, h3.2⟩, fun j' hj' => ?_⟩
  by_contra hlt
  obtain ⟨_, hb', hge, hrun'⟩ := hj'
  have := h4 j' hge (by omega)
  simp [hb', hrun'] at this

theorem matchEnd_isSome {a b : Str} {dotall : Bool} {s : Str} {i j : Nat}
    (hb : b ≠ []) (hlit : litAt b s j = true) (hge : i + a.length + 1 ≤ j)
    (hrun : runOk dotall s (i + a.length) j = true) :
    (matchEnd a b dotall s i).isSome = true := by
  have hjb : j + b.length ≤ s.length := litAt_bound hb hlit
  have hb1 : 1 ≤ b.length := by
    cases b with
    | nil => exact absurd rfl hb
    | cons x xs => simp
  exact firstSuch_isSome hge (by omega) (by simp [hlit, hrun])

theorem reSearchPos_none {a b : Str} {dotall : Bool} {s : Str}
    (hb : b ≠ []) (h : reSearchPos a b dotall s = none) :
    ∀ i j, ¬ MatchAt a b dotall s i j := by
  intro i j hm
  obtain ⟨h1, h2, h3, h4⟩ := hm
  unfold reSearchPos at h
  cases hfs : firstSuch (fun i => litAt a s i && (matchEnd a b dotall s i).isSome)
      0 (s.length + 1) with
  | some i0 =>
    rw [hfs] at h
    obtain ⟨_, _, hp, _⟩ := firstSuch_some hfs
    rw [Bool.and_eq_true] at hp
    simp only [Option.some_bind] at h
    cases hme : matchEnd a b dotall s i0 with
    | some j0 => rw [hme] at h; exact Option.noConfusion h
    | none => rw [hme] at hp; simp at hp
  | none =>
    have hi0 : i ≤ s.length := by
      have hb1 : 1 ≤ b.length := by
        cases b with
        | nil => exact absurd rfl hb
        | cons x xs => simp
      have := litAt_bound hb h2
      omega
    have := firstSuch_none hfs i (Nat.zero_le i) (by omega)
    have hend : (matchEnd a b dotall s i).isSome = true :=
      matchEnd_isSome hb h2 h3 h4
    simp [h1, hend] at this

theorem reSearchPos_some {a b : Str} {dotall : Bool} {s : Str} {i e : Nat}
    (hb : b ≠ []) (h : reSearchPos a b dotall s = some (i, e)) :
    ∃ j, e = j + b.length ∧ MatchAt a b dotall s i j ∧
      (∀ i', (∃ j', MatchAt a b dotall s i' j') → i ≤ i') ∧
      (∀ j', MatchAt a b dotall s i j' → j ≤ j') := by
  unfold reSearchPos at h
  cases hfs : firstSuch (fun i => litAt a s i && (matchEnd a b dotall s i).isSome)
      0 (s.length + 1) with
  | none => rw [hfs] at h; exact Option.noConfusion h
  | some i0 =>
    rw [hfs] at h
    simp only [Option.some_bind] at h
    obtain ⟨_, _, hp, hmin⟩ := firstSuch_some hfs
    rw [Bool.and_eq_true] at hp
    cases hme : matchEnd a b dotall s i0 with
    | none => rw [hme] at h; exact Option.noConfusion h
    | some j0 =>
      rw [hme] at h
      simp only [Option.map_some', Option.some.injEq, Prod.mk.injEq] at h
      obtain ⟨hi, he⟩ := h
      obtain ⟨hm, hjmin⟩ := matchEnd_some hp.1 hme
      subst hi
      refine ⟨j0, he.symm, hm, fun i' ⟨j', hm'⟩ => ?_, hjmin⟩
      by_contra hlt
      have hi'lt : i' < i0 := by omega
      have hfalse := hmin i' (Nat.zero_le i') hi'lt
      have hend' : (matchEnd a b dotall s i').isSome = true :=
        matchEnd_isSome hb hm'.2.1 hm'.2.2.1 hm'.2.2.2
      simp [hm'.1, hend'] at hfalse

theorem firstOccurrence_none {pat s : Str} (hpat : pat ≠ [])
    (h : firstOccurrence pat s = none) :
    ∀ i, litAt pat s i = false := by
  intro i
  cases hp : litAt pat s i
  · rfl
  · have hbound := litAt_bound hpat hp
    have hb1 : 1 ≤ pat.length := by
      cases pat with
      | nil => exact absurd rfl hpat
      | cons x xs => simp
    have := firstSuch_none h i (Nat.zero_le i) (by omega)
    simp [hp] at this

theorem firstOccurrence_some {pat s : Str} {i : Nat}
    (h : firstOccurrence pat s = some i) :
    litAt pat s i = true ∧ ∀ k, k < i → litAt pat s k = false := by
  obtain ⟨_, _, h3, h4⟩ := firstSuch_some h
  exact ⟨h3, fun k hk => h4 k (Nat.zero_le k) hk⟩

theorem firstOccurrence_isSome {pat s : Str} {k : Nat} (hpat : pat ≠ [])
    (hk : litAt pat s k = true) : (firstOccurrence pat s).isSome = true := by
  have := litAt_bound hpat hk
  have hb1 : 1 ≤ pat.length := by
    cases pat with
    | nil => exact absurd rfl hpat
    | cons x xs => simp
  exact firstSuch_isSome (Nat.zero_le k) (by omega) hk

/-- Claim C1: for every listing and article, the previous-post link computed
by `generate_post` (via `previous_article_link`, src lines 257-281) is: the
`'../'`-joined target of `listing[i-1]` when the article is found at index
`i > 0`; empty when found at index 0; the `'../'`-joined target of the last
listing entry when not found; and empty whenever the listing is empty. -/
theorem c1_previous_link_cases (article : Article) (listing : List Article) :
    (∀ i prev, find_article_index article listing = some i → 1 ≤ i →
        listing[i - 1]? = some prev →
        previous_article_link article listing = pathJoinParent prev.target) ∧
    (find_article_index article listing = some 0 →
        previous_article_link article listing = []) ∧
    (∀ lastArt, find_article_index article listing = none →
        listing.getLast? = some lastArt →
        previous_article_link article listing = pathJoinParent lastArt.target) ∧
    (listing = [] → previous_article_link article listing = []) := by
  refine ⟨?_, ?_, ?_, ?_⟩
  · intro i prev hfind hi hget
    simp [previous_article_link, hfind, hi, hget]
  · intro hfind
    simp [previous_article_link, hfind]
  · intro lastArt hfind hlast
    simp [previous_article_link, hfind, hlast]
  · intro h
    subst h
    simp [previous_article_link, find_article_index]

/-- Witness for C1: the four cases evaluated on the concrete listing
`[artAS, artBS, artCS]` (spec's `[A, B, C]`). -/
theorem c1_previous_link_cases_witness :
    previous_article_link artBS [artAS, artBS, artCS] = "../a.html".toList ∧
    previous_article_link artAS [artAS, artBS, artCS] = [] ∧
    previous_article_link artNS [artAS, artBS, artCS] = "../c.html".toList ∧
    previous_article_link artNS [] = [] ∧
    previous_article_link artBS [artDS, artBS] = "../p/q.html".toList := by
  refine ⟨?_, ?_, ?_, ?_, ?_⟩
  · have h := (c1_previous_link_cases artBS [artAS, artBS, artCS]).1 1 artAS
      (by decide) (by decide) (by decide)
    rw [h]; decide
  · exact (c1_previous_link_cases artAS [artAS, artBS, artCS]).2.1 (by decide)
  · have h := (c1_previous_link_cases artNS [artAS, artBS, artCS]).2.2.1 artCS
      (by decide) (by decide)
    rw [h]; decide
  · exact (c1_previous_link_cases artNS []).2.2.2 rfl
  · have h := (c1_previous_link_cases artBS [artDS, artBS]).1 1 artDS
      (by decide) (by decide) (by decide)
    rw [h]; decide

/-- Claim C3 counterexample: on an article whose HTML body is exactly
`<p>Intro.</p><p>More.</p>`, `extract_article_preview` does not return a
preview: splitting on `<p>` yields a leading empty fragment, and
`paragraph.strip()[0]` on it raises `IndexError` (src line 83). -/
theorem c3_crash_counterexample :
    extract_article_preview (fun _ => "<p>Intro.</p><p>More.</p>".toList) artNS =
      Except.error PyErr.indexError := by
  rfl

/-- Claim C3 as amended: for an article whose HTML body is exactly
`Intro.</p><p>More.</p>` (no leading `<p>`: a body that begins with the
paragraph-open marker makes the leading empty split fragment raise an index
error), `extract_article_preview` returns a preview whose intro text is the
split/collect/strip reconstruction `<p>Intro.</p><p>More.` and whose
`first_photo` is absent, without any error. -/
theorem c3_amended_preview :
    extract_article_preview (fun _ => "Intro.</p><p>More.</p>".toList) artNS =
      Except.ok { toArticle := artNS,
                  intro_text := "<p>Intro.</p><p>More.".toList,
                  first_photo := none } := by
  rfl

/-- Claim C8 counterexample: `create_article_previews` does modify the
listing it reads: `listing.reverse()` (src line 328) reverses the in-memory
list in place, so after the call the two-element sample listing is no longer
in its original order. -/
theorem c8_listing_reversed_counterexample :
    ¬ (create_article_previews (fun _ => []) [artAS, artBS]).1 = [artAS, artBS] := by
  decide

/-- Claim C8 as amended: `generate_post` only reads the listing, but
`create_article_previews` (and `generate_landing_page` through it) reverses
the in-memory listing in place: after the call the listing object holds
exactly the reversal of what was read — the same Article records (a
permutation, nothing added or dropped) in reversed order — so the order is
preserved only for listings equal to their own reversal.  The collaborator's
stored listing file is never written by the core. -/
theorem c8_amended_listing_state (rf : Str → Str) (listing : List Article) :
    (create_article_previews rf listing).1 = listing.reverse ∧
    List.Perm (create_article_previews rf listing).1 listing ∧
    ((create_article_previews rf listing).1 = listing ↔ listing.reverse = listing) := by
  exact ⟨rfl, listing.reverse_perm, Iff.rfl⟩

theorem except_map_error_eq {α β γ : Type} {f : α → β} {x : Except γ α} {e : γ}
    (h : x.map f = .error e) : x = .error e := by
  cases x with
  | error e' => simpa [Except.map] using h
  | ok v => simp [Except.map] at h

theorem pyFormatF_error_shape (kw : List (Str × Str)) :
    ∀ (fuel : Nat) (s : Str) (e : PyErr), pyFormatF kw fuel s = .error e →
      e = .valueError formatFuelMsg ∨ e = .valueError singleOpenBraceMsg ∨
      e = .valueError singleCloseBraceMsg ∨ ∃ nm, e = .keyError nm := by
  intro fuel
  induction fuel with
  | zero =>
    intro s e h
    exact Or.inl (Except.error.inj h).symm
  | succ n ih =>
    intro s e h
    cases s with
    | nil => rw [pyFormatF.eq_def] at h; simp at h
    | cons c rest =>
      rw [pyFormatF.eq_def] at h
      simp only [] at h
      by_cases hc : c = lbrace
      · rw [if_pos hc] at h
        cases rest with
        | nil => exact Or.inr (Or.inl (Except.error.inj h).symm)
        | cons d rest2 =>
          simp only [] at h
          by_cases hd : d = lbrace
          · rw [if_pos hd] at h
            exact ih rest2 e (except_map_error_eq h)
          · rw [if_neg hd] at h
            cases hdw : (d :: rest2).dropWhile (fun x => !(x = rbrace)) with
            | nil => rw [hdw] at h; exact Or.inr (Or.inl (Except.error.inj h).symm)
            | cons y after2 =>
              rw [hdw] at h
              cases hlk : lookupKw kw ((d :: rest2).takeWhile (fun x => !(x = rbrace))) with
              | some v => rw [hlk] at h; exact ih after2 e (except_map_error_eq h)
              | none =>
                rw [hlk] at h
                exact Or.inr (Or.inr (Or.inr ⟨_, (Except.error.inj h).symm⟩))
      · rw [if_neg hc] at h
        by_cases hc2 : c = rbrace
        · rw [if_pos hc2] at h
          cases rest with
          | nil => exact Or.inr (Or.inr (Or.inl (Except.error.inj h).symm))
          | cons d rest2 =>
            simp only [] at h
            by_cases hd : d = rbrace
            · rw [if_pos hd] at h
              exact ih rest2 e (except_map_error_eq h)
            · rw [if_neg hd] at h
              exact Or.inr (Or.inr (Or.inl (Except.error.inj h).symm))
        · rw [if_neg hc2] at h
          exact ih rest e (except_map_error_eq h)

theorem pyFormat_ne_structural (kw : List (Str × Str)) (t : Str) :
    pyFormat kw t ≠ Except.error (PyErr.valueError argHtmlMsg) := by
  intro h
  rcases pyFormatF_error_shape kw _ t _ h with h1 | h1 | h1 | ⟨nm, h1⟩
  · exact absurd (PyErr.valueError.inj h1) (by decide)
  · exact absurd (PyErr.valueError.inj h1) (by decide)
  · exact absurd (PyErr.valueError.inj h1) (by decide)
  · exact PyErr.noConfusion h1

theorem reSearchPos_eq_none {a b : Str} {dotall : Bool} {s : Str} (hb : b ≠ [])
    (h : ∀ i j, ¬ MatchAt a b dotall s i j) : reSearchPos a b dotall s = none := by
  cases hr : reSearchPos a b dotall s with
  | none => rfl
  | some ie =>
    obtain ⟨i, e⟩ := ie
    obtain ⟨j, _, hm, _, _⟩ := reSearchPos_some hb hr
    exact absurd hm (h i j)

theorem titleMatch_none_iff {html : Str} :
    titleMatch html = none ↔
      ((∀ i j, ¬ MatchAt ("<h1>".toList) "</h1>".toList false html i j) ∧
       (∀ i j, ¬ MatchAt ("<h2 class=\"article_title\">".toList) "</a>".toList false html i j)) := by
  constructor
  · intro h
    unfold titleMatch at h
    cases h1 : reSearch ("<h1>".toList) "</h1>".toList false html with
    | some m => rw [h1] at h; exact Option.noConfusion h
    | none =>
      rw [h1] at h
      cases h2 : reSearch ("<h2 class=\"article_title\">".toList) "</a>".toList false html with
      | some m => rw [h2] at h; exact Option.noConfusion h
      | none =>
        unfold reSearch at h1 h2
        refine ⟨reSearchPos_none (by decide) ?_, reSearchPos_none (by decide) ?_⟩
        · exact Option.map_eq_none'.mp h1
        · exact Option.map_eq_none'.mp h2
  · intro ⟨h1, h2⟩
    unfold titleMatch reSearch
    rw [reSearchPos_eq_none (by decide) h1, reSearchPos_eq_none (by decide) h2]
    rfl

theorem find_article_index_title_irrel (s t : Str) (pd : Option Str)
    (hr html md x y hp : Str) :
    ∀ l, find_article_index ⟨s, t, pd, hr, html, md, x, hp⟩ l =
         find_article_index ⟨s, t, pd, hr, html, md, y, hp⟩ l := by
  intro l
  induction l with
  | nil => rfl
  | cons b rest ih => simp [find_article_index, ih]

theorem previous_article_link_title_irrel (s t : Str) (pd : Option Str)
    (hr html md x y hp : Str) (l : List Article) :
    previous_article_link ⟨s, t, pd, hr, html, md, x, hp⟩ l =
      previous_article_link ⟨s, t, pd, hr, html, md, y, hp⟩ l := by
  unfold previous_article_link
  rw [find_article_index_title_irrel s t pd hr html md x y hp l]

/-- Claim C9: rendering the same article twice with otherwise unmodified
inputs gives byte-identical results: the first run's only state change is
the `title` assignment (src line 226), and `generate_post` never reads the
incoming `title` field, so rerunning on the mutated article returns the same
output (and the same error in the no-heading case). -/
theorem c9_rerender_identical (cfg : Configuration) (today : Today)
    (listing : List Article) (template : Str) (article : Article) :
    (generate_post cfg today listing template
        (generate_post cfg today listing template article).1).2 =
      (generate_post cfg today listing template article).2 := by
  cases article with
  | mk s t pd hr html md ti hp =>
    unfold generate_post
    cases h : titleMatch html with
    | none => simp [h]
    | some m =>
      simp only [h]
      rw [previous_article_link_title_irrel s t pd hr html md (stripTitle m) ti hp listing]

/-- Claim C2: `generate_post` raises the structural `ValueError` — and the
whole result is that error, no output string — if and only if the article's
HTML contains neither an `<h1>...</h1>` heading nor a preview-style
`<h2 class="article_title">...</a>` title block (occurrence in the sense of
the source's patterns, `MatchAt`, where `.` does not cross newlines); when a
heading is present, no later step of the render can produce this error, so
the error propagates exactly from the missing-heading check at src lines
213-219. -/
theorem c2_structural_error_iff (cfg : Configuration) (today : Today)
    (listing : List Article) (template : Str) (article : Article) :
    ((generate_post cfg today listing template article).2 =
        Except.error (PyErr.valueError argHtmlMsg)) ↔
      ((∀ i j, ¬ MatchAt ("<h1>".toList) "</h1>".toList false article.html i j) ∧
       (∀ i j, ¬ MatchAt ("<h2 class=\"article_title\">".toList) "</a>".toList false
          article.html i j)) := by
  constructor
  · intro h
    cases ht : titleMatch article.html with
    | none => exact titleMatch_none_iff.mp ht
    | some m =>
      exfalso
      unfold generate_post at h
      rw [ht] at h
      simp only [] at h
      exact pyFormat_ne_structural _ _ h
  · intro hcond
    unfold generate_post
    rw [titleMatch_none_iff.mpr hcond]

/-- Witness for C2: the structural error on a concrete article whose HTML
has no heading, through the right-to-left direction of the theorem; the
no-occurrence hypotheses are discharged from the evaluated searches. -/
theorem c2_structural_error_iff_witness :
    (generate_post cfgS todayS [] tmplS artNoHeadS).2 =
      Except.error (PyErr.valueError argHtmlMsg) :=
  (c2_structural_error_iff cfgS todayS [] tmplS artNoHeadS).mpr
    ⟨reSearchPos_none (by decide) (by decide),
     reSearchPos_none (by decide) (by decide)⟩

/-- Claim C6 counterexample: the extracted title is not the heading's inner
text with all tags removed: for the heading `<h1>A <em>b</em></h1>` the
title stored by `generate_post` is `A <em>b</em>` — the embedded `<em>` tag
survives, because src lines 222-225 strip only the wrapper heading tags and
hyperlink open/close tags. -/
theorem c6_embedded_tag_counterexample :
    (generate_post cfgS todayS [] tmplS artES).1.title = "A <em>b</em>".toList ∧
    litAt ("<em>".toList) (generate_post cfgS todayS [] tmplS artES).1.title 2 = true := by
  constructor
  · decide
  · decide

/-- Claim C6 as amended: whenever the article's HTML contains an
`<h1>...</h1>` heading or a preview-style `<h2 class="article_title">...</a>`
block, a title match is found, and `generate_post` stores onto the returned
article's `title` field exactly the found match with the wrapper heading
tags and the embedded hyperlink-open/close tags removed (`stripTitle`);
other embedded tags are preserved verbatim. -/
theorem c6_amended_title_extraction (cfg : Configuration) (today : Today)
    (listing : List Article) (template : Str) (article : Article) :
    (∀ m, titleMatch article.html = some m →
        (generate_post cfg today listing template article).1 =
          { article with title := stripTitle m }) ∧
    (∀ i j, (MatchAt ("<h1>".toList) "</h1>".toList false article.html i j ∨
             MatchAt ("<h2 class=\"article_title\">".toList) "</a>".toList false
               article.html i j) →
        ∃ m, titleMatch article.html = some m) := by
  constructor
  · intro m hm
    unfold generate_post
    rw [hm]
  · intro i j hor
    unfold titleMatch
    cases h1 : reSearch ("<h1>".toList) "</h1>".toList false article.html with
    | some m => exact ⟨m, rfl⟩
    | none =>
      rcases hor with hm | hm
      · exact absurd hm (reSearchPos_none (by decide) (Option.map_eq_none'.mp h1) i j)
      · cases h2 : reSearch ("<h2 class=\"article_title\">".toList) "</a>".toList false
            article.html with
        | some m => exact ⟨m, rfl⟩
        | none =>
          exact absurd hm (reSearchPos_none (by decide) (Option.map_eq_none'.mp h2) i j)

/-- Witness for C6: the amended theorem evaluated on the concrete article
`artAS` with heading `<h1>Alpha</h1>`. -/
theorem c6_amended_title_extraction_witness :
    (generate_post cfgS todayS [] tmplS artAS).1 =
      { artAS with title := "Alpha".toList } := by
  have h := (c6_amended_title_extraction cfgS todayS [] tmplS artAS).1
    ("<h1>Alpha</h1>".toList) (by decide)
  rw [h]
  decide

/-- Claim C7: landing-page assembly emits previews most-recent-first: for a
listing `[A, B]` in oldest-first order the previews are built in the
reversed order `[B, A]`, the aggregate body places B's rendered preview
before A's with a blank line after each, and the page is the template
formatted with that aggregate as `article_content`. -/
theorem c7_landing_reverse_order (rf : Str → Str) (cfg : Configuration)
    (today : Today) (template : Str) (A B : Article) (pa pb : ArticlePreview)
    (hA : extract_article_preview rf A = Except.ok pa)
    (hB : extract_article_preview rf B = Except.ok pb) :
    (create_article_previews rf [A, B]).2 = Except.ok [pb, pa] ∧
    landing_aggregate [pb, pa] =
      generate_preview_html pb ++ "\n\n".toList ++
        generate_preview_html pa ++ "\n\n".toList ∧
    generate_landing_page rf cfg today [A, B] template =
      pyFormat (landingKwargs cfg today (landing_aggregate [pb, pa])) template := by
  have hc : (create_article_previews rf [A, B]).2 = Except.ok [pb, pa] := by
    simp [create_article_previews, previews_of, hA, hB]
  refine ⟨hc, ?_, ?_⟩
  · simp [landing_aggregate, List.append_assoc]
  · unfold generate_landing_page
    rw [hc]

/-- Witness for C7: the reversal evaluated on the concrete oldest-first
listing `[artAS, artBS]` with a constant body for both articles. -/
theorem c7_landing_reverse_order_witness :
    (create_article_previews (fun _ => "Hi.</p>".toList) [artAS, artBS]).2 =
      Except.ok
        [{ toArticle := artBS, intro_text := "<p>Hi.".toList, first_photo := none },
         { toArticle := artAS, intro_text := "<p>Hi.".toList, first_photo := none }] :=
  (c7_landing_reverse_order (fun _ => "Hi.</p>".toList) cfgS todayS tmplS artAS artBS
    { toArticle := artAS, intro_text := "<p>Hi.".toList, first_photo := none }
    { toArticle := artBS, intro_text := "<p>Hi.".toList, first_photo := none }
    rfl rfl).1

theorem matchAt_dotall_iff {a b : Str} {s : Str} {i j : Nat} :
    MatchAt a b true s i j ↔
      (litAt a s i = true ∧ litAt b s j = true ∧ i + a.length + 1 ≤ j) := by
  unfold MatchAt
  simp [runOk_dotall]

/-- Claim C10 counterexample: the input `<article></section>` contains
`<article>` at 0 and `</section>` right after it at 9 — a region starting
with the one and ending with the other — yet `preprocess_raw_html` fails:
`.+?` requires at least one character between the tags, so the search finds
no match and the unguarded `.group(0)` raises `AttributeError`. -/
theorem c10_adjacent_tags_counterexample :
    litAt ("<article>".toList) "<article></section>".toList 0 = true ∧
    litAt ("</section>".toList) "<article></section>".toList 9 = true ∧
    preprocess_raw_html ("<article></section>".toList) =
      Except.error PyErr.attributeError := by
  refine ⟨by decide, by decide, by rfl⟩

/-- Claim C10 as amended: `preprocess_raw_html` succeeds exactly on inputs
containing `<article>` at some `i` and `</section>` at some `j` with at
least one character between the tags (`i + 10 ≤ j`; with `re.DOTALL`, `.`
matches newlines so no further condition applies); on such inputs it
returns the leftmost-start, then shortest, such region with every
occurrence of the four tags removed; on every other input it fails with the
`AttributeError` from accessing the absent match unguarded. -/
theorem c10_amended_preprocess (s : Str) :
    ((∃ i j, litAt ("<article>".toList) s i = true ∧
         litAt ("</section>".toList) s j = true ∧ i + 10 ≤ j) →
       ∃ i j, litAt ("<article>".toList) s i = true ∧
         litAt ("</section>".toList) s j = true ∧ i + 10 ≤ j ∧
         (∀ i' j', MatchAt ("<article>".toList) "</section>".toList true s i' j' →
            i ≤ i') ∧
         (∀ j', MatchAt ("<article>".toList) "</section>".toList true s i j' →
            j ≤ j') ∧
         preprocess_raw_html s =
           Except.ok (removeArticleTags ((s.drop i).take (j + 10 - i)))) ∧
    ((¬ ∃ i j, litAt ("<article>".toList) s i = true ∧
         litAt ("</section>".toList) s j = true ∧ i + 10 ≤ j) →
       preprocess_raw_html s = Except.error PyErr.attributeError) := by
  have halen : ("<article>".toList).length = 9 := by decide
  have hblen : ("</section>".toList).length = 10 := by decide
  constructor
  · intro ⟨i0, j0, h1, h2, h3⟩
    cases hr : reSearchPos ("<article>".toList) "</section>".toList true s with
    | none =>
      exact absurd (matchAt_dotall_iff.mpr ⟨h1, h2, by omega⟩)
        (reSearchPos_none (by decide) hr i0 j0)
    | some ie =>
      obtain ⟨i, e⟩ := ie
      obtain ⟨j, he, hm, himin, hjmin⟩ := reSearchPos_some (by decide) hr
      rw [matchAt_dotall_iff] at hm
      obtain ⟨hm1, hm2, hm3⟩ := hm
      refine ⟨i, j, hm1, hm2, by omega, ?_, hjmin, ?_⟩
      · intro i' j' hm'
        exact himin i' ⟨j', hm'⟩
      · unfold preprocess_raw_html reSearch
        rw [hr]
        subst he
        simp only [Option.map_some']
        rw [hblen]
  · intro hno
    have hnone : reSearchPos ("<article>".toList) "</section>".toList true s = none := by
      apply reSearchPos_eq_none (by decide)
      intro i j hm
      rw [matchAt_dotall_iff] at hm
      exact hno ⟨i, j, hm.1, hm.2.1, by omega⟩
    unfold preprocess_raw_html reSearch
    rw [hnone]
    rfl

/-- Witness for C10: the success case of the amended theorem on the concrete
input `<article>x</section>`. -/
theorem c10_amended_preprocess_witness :
    ∃ i j, litAt ("<article>".toList) "<article>x</section>".toList i = true ∧
      litAt ("</section>".toList) "<article>x</section>".toList j = true ∧
      i + 10 ≤ j ∧
      (∀ i' j', MatchAt ("<article>".toList) "</section>".toList true
          ("<article>x</section>".toList) i' j' → i ≤ i') ∧
      (∀ j', MatchAt ("<article>".toList) "</section>".toList true
          ("<article>x</section>".toList) i j' → j ≤ j') ∧
      preprocess_raw_html ("<article>x</section>".toList) =
        Except.ok (removeArticleTags
          (("<article>x</section>".toList.drop i).take (j + 10 - i))) :=
  (c10_amended_preprocess ("<article>x</section>".toList)).1
    ⟨0, 10, by decide, by decide, by decide⟩

theorem firstOccurrence_eq_none {pat s : Str} (h : ∀ i, litAt pat s i = false) :
    firstOccurrence pat s = none :=
  firstSuch_none_of (fun k _ _ => h k)

theorem litAt_reverse_iff {pat t : Str} {k : Nat} (hp : pat ≠ []) :
    litAt pat.reverse t.reverse k = true ↔
      (k + pat.length ≤ t.length ∧
       litAt pat t (t.length - pat.length - k) = true) := by
  have hp1 : 1 ≤ pat.length := by
    cases pat with
    | nil => exact absurd rfl hp
    | cons x xs => simp
  unfold litAt
  rw [ List.isPrefixOf_iff_prefix, List.isPrefixOf_iff_prefix, List.drop_reverse,
    List.reverse_prefix]
  constructor
  · intro hs
    have hlen : pat.length ≤ (t.take (t.length - k)).length := hs.length_le
    rw [List.length_take] at hlen
    have hkb : k + pat.length ≤ t.length := by omega
    refine ⟨hkb, ?_⟩
    rw [List.suffix_iff_eq_drop] at hs
    rw [List.length_take, List.drop_take] at hs
    rw [List.prefix_iff_eq_take]
    have e1 : min (t.length - k) t.length - pat.length = t.length - pat.length - k := by
      omega
    have e2 : t.length - k - (t.length - pat.length - k) = pat.length := by omega
    rw [e1, e2] at hs
    exact hs
  · intro ⟨hkb, hpre⟩
    rw [List.prefix_iff_eq_take] at hpre
    rw [List.suffix_iff_eq_drop, List.length_take, List.drop_take]
    have e1 : min (t.length - k) t.length - pat.length = t.length - pat.length - k := by
      omega
    have e2 : t.length - k - (t.length - pat.length - k) = pat.length := by omega
    rw [e1, e2]
    exact hpre

/-- Claim C4: the trailing-tag strip of `extract_article_preview`: whenever
the reconstructed intro text contains `</p>`, `strip_trailing_tag` truncates
at the last occurrence, removing that `</p>` and everything after it;
whenever it contains no `</p>` (for instance the empty intro text produced
by a body with zero `<p>` markers), it fails with the explicit `ValueError`
of Python `str.index` (`substring not found`) — the codebase's
malformed-fragment error — rather than silently truncating or crashing with
an unrelated low-level error. -/
theorem c4_trailing_strip (t : Str) :
    (∀ p, litAt ("</p>".toList) t p = true →
       (∀ q, litAt ("</p>".toList) t q = true → q ≤ p) →
       strip_trailing_tag t = Except.ok (t.take p)) ∧
    ((∀ p, litAt ("</p>".toList) t p = false) →
       strip_trailing_tag t = Except.error (PyErr.valueError substringNotFoundMsg)) := by
  have hrev : ">p/<".toList = ("</p>".toList).reverse := by decide
  have hpne : ("</p>".toList) ≠ [] := by decide
  have hplen : ("</p>".toList).length = 4 := by decide
  constructor
  · intro p hp hmax
    have hpb := litAt_bound hpne hp
    rw [hplen] at hpb
    have hkp : litAt (("</p>".toList).reverse) t.reverse (t.length - 4 - p) = true := by
      rw [litAt_reverse_iff hpne, hplen]
      refine ⟨by omega, ?_⟩
      have he : t.length - 4 - (t.length - 4 - p) = p := by omega
      rw [he]
      exact hp
    cases hfo : firstOccurrence (">p/<".toList) t.reverse with
    | none =>
      exfalso
      have hfn : litAt (("</p>".toList).reverse) t.reverse (t.length - 4 - p) = false :=
        firstOccurrence_none (by decide) hfo (t.length - 4 - p)
      rw [hkp] at hfn
      exact Bool.noConfusion hfn
    | some k =>
      obtain ⟨hk1, hk2⟩ := firstOccurrence_some hfo
      rw [hrev, litAt_reverse_iff hpne, hplen] at hk1
      obtain ⟨hkb, hk1⟩ := hk1
      have hple : t.length - 4 - k ≤ p := hmax _ hk1
      have hpge : p ≤ t.length - 4 - k := by
        by_contra hlt
        push_neg at hlt
        have hkplt : t.length - 4 - p < k := by omega
        have hmin : litAt (("</p>".toList).reverse) t.reverse (t.length - 4 - p) = false :=
          hk2 _ hkplt
        rw [hkp] at hmin
        exact Bool.noConfusion hmin
      unfold strip_trailing_tag
      rw [hfo]
      have he : t.length - (k + 4) = p := by omega
      show Except.ok (t.take (t.length - (k + 4))) = Except.ok (t.take p)
      rw [he]
  · intro hnone
    have hfo : firstOccurrence (">p/<".toList) t.reverse = none := by
      apply firstOccurrence_eq_none
      intro i
      rw [hrev]
      cases hc : litAt (("</p>".toList).reverse) t.reverse i
      · rfl
      · rw [litAt_reverse_iff hpne] at hc
        rw [hnone] at hc
        simp at hc
    unfold strip_trailing_tag
    rw [hfo]

/-- Witness for C4: both cases on concrete intro texts; in
`<p>a</p>b</p>c` the last `</p>` starts at index 9, so the strip keeps
`<p>a</p>b`. -/
theorem c4_trailing_strip_witness :
    strip_trailing_tag ("<p>a</p>b</p>c".toList) = Except.ok ("<p>a</p>b".toList) ∧
    strip_trailing_tag ("<p>hello".toList) =
      Except.error (PyErr.valueError substringNotFoundMsg) := by
  constructor
  · have h := (c4_trailing_strip ("<p>a</p>b</p>c".toList)).1 9 (by decide) ?_
    · rw [h]
      rfl
    · intro q hq
      by_contra hgt
      push_neg at hgt
      have hb := litAt_bound (show ("</p>".toList) ≠ [] by decide) hq
      have hlen : ("</p>".toList).length = 4 := by decide
      have htlen : ("<p>a</p>b</p>c".toList).length = 14 := by decide
      have hq10 : q = 10 := by omega
      rw [hq10] at hq
      exact absurd hq (by decide)
  · refine (c4_trailing_strip ("<p>hello".toList)).2 ?_
    intro p
    cases hc : litAt ("</p>".toList) ("<p>hello".toList) p
    · rfl
    · have hb := litAt_bound (show ("</p>".toList) ≠ [] by decide) hc
      rw [show ("</p>".toList).length = 4 by decide,
        show ("<p>hello".toList).length = 8 by decide] at hb
      have hp4 : p ≤ 4 := by omega
      interval_cases p <;> exact absurd hc (by decide)

theorem charAt?_eq (s : Str) (k : Nat) : charAt? s k = s[k]? := by
  unfold charAt?
  rw [List.head?_eq_getElem?, List.getElem?_drop]
  simp

theorem charAt?_lt {s : Str} {k : Nat} {c : Char} (h : charAt? s k = some c) :
    k < s.length := by
  rw [charAt?_eq, List.getElem?_eq_some_iff] at h
  obtain ⟨hlt, _⟩ := h
  exact hlt

theorem litAt_charAt {pat s : Str} {i k : Nat} (h : litAt pat s i = true)
    (hk : k < pat.length) : charAt? s (i + k) = pat[k]? := by
  rw [litAt, List.isPrefixOf_iff_prefix] at h
  obtain ⟨r, hr⟩ := h
  rw [charAt?_eq, ← List.getElem?_drop, ← hr, List.getElem?_append_left hk]

theorem litAt_append {u v s : Str} {i : Nat} :
    litAt (u ++ v) s i = true ↔
      (litAt u s i = true ∧ litAt v s (i + u.length) = true) := by
  simp only [litAt, List.isPrefixOf_iff_prefix]
  constructor
  · intro h
    obtain ⟨r, hr⟩ := h
    rw [List.append_assoc] at hr
    refine ⟨⟨v ++ r, hr⟩, ⟨r, ?_⟩⟩
    rw [← List.drop_drop, ← hr, List.drop_left]
  · intro ⟨⟨r1, hr1⟩, ⟨r2, hr2⟩⟩
    rw [← List.drop_drop, ← hr1, List.drop_left] at hr2
    refine ⟨r2, ?_⟩
    rw [List.append_assoc, hr2, hr1]

theorem litAt_singleton {c : Char} {s : Str} {k : Nat} :
    litAt [c] s k = true ↔ charAt? s k = some c := by
  rw [litAt, List.isPrefixOf_iff_prefix]
  unfold charAt?
  cases hd : s.drop k with
  | nil => simp
  | cons x xs => simp [List.cons_prefix_cons, eq_comm]

theorem slice_of_litAt {pat s : Str} {i : Nat} (h : litAt pat s i = true) :
    (s.drop i).take pat.length = pat := by
  rw [litAt, List.isPrefixOf_iff_prefix, List.prefix_iff_eq_take] at h
  exact h.symm

theorem litAt_slice (s : Str) (a n : Nat) : litAt ((s.drop a).take n) s a = true := by
  rw [litAt, List.isPrefixOf_iff_prefix]
  exact List.take_prefix n (s.drop a)

theorem slice_append {s : Str} {a b c : Nat} (hab : a ≤ b) :
    (s.drop a).take (c - a) = (s.drop a).take (b - a) ++ (s.drop b).take (c - b) ∨
      c < b := by
  by_cases hbc : b ≤ c
  · left
    have h : c - a = (b - a) + (c - b) := by omega
    rw [h, List.take_add, List.drop_drop]
    have h2 : a + (b - a) = b := by omega
    rw [h2]
  · right
    omega

theorem charAt_of_mem_slice {s : Str} {a n : Nat} {c : Char}
    (h : c ∈ (s.drop a).take n) : ∃ k, a ≤ k ∧ k < a + n ∧ charAt? s k = some c := by
  obtain ⟨idx, hidx, hval⟩ := List.getElem_of_mem h
  have hidxn : idx < n := by
    have h2 := hidx
    rw [List.length_take] at h2
    omega
  have hq : ((s.drop a).take n)[idx]? = some c := by
    rw [List.getElem?_eq_some_iff]
    exact ⟨hidx, hval⟩
  rw [List.getElem?_take_of_lt hidxn, List.getElem?_drop] at hq
  refine ⟨a + idx, by omega, by omega, ?_⟩
  rw [charAt?_eq]
  exact hq

theorem slice_all_of_charAt {s : Str} {a n : Nat} {P : Char → Bool}
    (h : ∀ k, a ≤ k → k < a + n → ∀ c, charAt? s k = some c → P c = true) :
    ((s.drop a).take n).all P = true := by
  rw [List.all_eq_true]
  intro c hc
  obtain ⟨k, h1, h2, h3⟩ := charAt_of_mem_slice hc
  exact h k h1 h2 c h3

theorem dropWhile_head_not {α} (p : α → Bool) (l : List α) {c : α}
    (h : (l.dropWhile p).head? = some c) : p c = false := by
  induction l with
  | nil => simp [List.dropWhile] at h
  | cons x xs ih =>
    rw [List.dropWhile_cons] at h
    by_cases hp : p x
    · rw [if_pos hp] at h
      exact ih h
    · rw [if_neg hp] at h
      simp at h
      subst h
      exact Bool.of_not_eq_true hp

theorem takeWhile_length_eq {α} {p : α → Bool} {l : List α} {n : Nat}
    (h1 : ∀ k, k < n → ∃ c, l[k]? = some c ∧ p c = true)
    (h2 : ∀ c, l[n]? = some c → p c = false) :
    (l.takeWhile p).length = n := by
  induction l generalizing n with
  | nil =>
    cases n with
    | zero => rfl
    | succ m =>
      obtain ⟨c, hc, _⟩ := h1 0 (by omega)
      simp at hc
  | cons x xs ih =>
    cases n with
    | zero =>
      have hx := h2 x (by simp)
      rw [List.takeWhile_cons, if_neg (by simp [hx])]
      rfl
    | succ m =>
      obtain ⟨c, hc, hpc⟩ := h1 0 (by omega)
      simp at hc
      subst hc
      rw [List.takeWhile_cons, if_pos hpc]
      simp only [List.length_cons]
      congr 1
      exact ih (fun k hk => by simpa using h1 (k + 1) (by omega))
        (fun c hc => h2 c (by simpa using hc))

theorem wsEnd_eq_of_run {s : Str} {k0 n : Nat}
    (hrun : ∀ k, k0 ≤ k → k < k0 + n → ∃ c, charAt? s k = some c ∧ pySpace c = true)
    (hstop : ∀ c, charAt? s (k0 + n) = some c → pySpace c = false) :
    wsEnd s k0 = k0 + n := by
  unfold wsEnd
  have h := takeWhile_length_eq (p := pySpace) (l := s.drop k0) (n := n) ?_ ?_
  · omega
  · intro k hk
    obtain ⟨c, hc, hpc⟩ := hrun (k0 + k) (by omega) (by omega)
    rw [charAt?_eq, ← List.getElem?_drop] at hc
    exact ⟨c, hc, hpc⟩
  · intro c hc
    apply hstop
    rw [charAt?_eq, ← List.getElem?_drop]
    exact hc

theorem slice_all_charAt {s : Str} {a n : Nat} {P : Char → Bool}
    (hall : ((s.drop a).take n).all P = true) {k : Nat} (h1 : a ≤ k) (h2 : k < a + n)
    {c : Char} (hc : charAt? s k = some c) : P c = true := by
  rw [List.all_eq_true] at hall
  apply hall
  have hk : k < s.length := charAt?_lt hc
  rw [charAt?_eq] at hc
  have hg : ((s.drop a).take n)[k - a]? = some c := by
    rw [List.getElem?_take_of_lt (by omega), List.getElem?_drop,
      show a + (k - a) = k from by omega]
    exact hc
  exact List.getElem?_mem hg

theorem takeWhile_all {α} (p : α → Bool) (l : List α) : (l.takeWhile p).all p = true := by
  rw [List.all_eq_true]
  intro x hx
  exact List.mem_takeWhile_imp hx

theorem slice_wsEnd (s : Str) (k : Nat) :
    (s.drop k).take (wsEnd s k - k) = (s.drop k).takeWhile pySpace := by
  unfold wsEnd
  rw [Nat.add_sub_cancel_left]
  exact (List.prefix_iff_eq_take.mp ( List.takeWhile_prefix pySpace)).symm

theorem drop_takeWhile_length {α} (p : α → Bool) (l : List α) :
    l.drop ((l.takeWhile p).length) = l.dropWhile p := by
  calc l.drop ((l.takeWhile p).length)
      = ((l.takeWhile p) ++ (l.dropWhile p)).drop ((l.takeWhile p).length) := by
        rw [List.takeWhile_append_dropWhile]
    _ = l.dropWhile p := List.drop_left _ _

theorem wsEnd_ge (s : Str) (k : Nat) : k ≤ wsEnd s k := Nat.le_add_right _ _

theorem wsEnd_space {s : Str} {k0 k : Nat} (h1 : k0 ≤ k) (h2 : k < wsEnd s k0) :
    ∃ c, charAt? s k = some c ∧ pySpace c = true := by
  have hw := litAt_slice s k0 (wsEnd s k0 - k0)
  rw [slice_wsEnd] at hw
  have hlen : k - k0 < ((s.drop k0).takeWhile pySpace).length := by
    unfold wsEnd at h2
    omega
  have hc := litAt_charAt hw hlen
  rw [show k0 + (k - k0) = k from by omega] at hc
  rw [List.getElem?_eq_getElem hlen] at hc
  refine ⟨_, hc, ?_⟩
  exact List.mem_takeWhile_imp (List.getElem_mem hlen)

theorem wsEnd_stop {s : Str} {k0 : Nat} {c : Char}
    (h : charAt? s (wsEnd s k0) = some c) : pySpace c = false := by
  have hd : s.drop (wsEnd s k0) = (s.drop k0).dropWhile pySpace := by
    unfold wsEnd
    rw [← List.drop_drop]
    exact drop_takeWhile_length pySpace (s.drop k0)
  unfold charAt? at h
  rw [hd] at h
  exact dropWhile_head_not pySpace _ h

theorem slice_length {s : Str} {a n : Nat} (h : a + n ≤ s.length) :
    ((s.drop a).take n).length = n := by
  rw [List.length_take, List.length_drop]
  omega

theorem litAt_concat6 {s p1 p2 p3 p4 p5 p6 : Str} {i a2 a3 a4 a5 a6 : Nat}
    (h1 : litAt p1 s i = true) (e2 : a2 = i + p1.length) (h2 : litAt p2 s a2 = true)
    (e3 : a3 = a2 + p2.length) (h3 : litAt p3 s a3 = true)
    (e4 : a4 = a3 + p3.length) (h4 : litAt p4 s a4 = true)
    (e5 : a5 = a4 + p4.length) (h5 : litAt p5 s a5 = true)
    (e6 : a6 = a5 + p5.length) (h6 : litAt p6 s a6 = true) :
    litAt (p1 ++ (p2 ++ (p3 ++ (p4 ++ (p5 ++ p6))))) s i = true := by
  rw [litAt_append]
  refine ⟨h1, ?_⟩
  rw [← e2, litAt_append]
  refine ⟨h2, ?_⟩
  rw [← e3, litAt_append]
  refine ⟨h3, ?_⟩
  rw [← e4, litAt_append]
  refine ⟨h4, ?_⟩
  rw [← e5, litAt_append]
  exact ⟨h5, e6 ▸ h6⟩

theorem pubParseEnd_decomp {s : Str} {i j : Nat} (h : pubParseEnd s i = some j) :
    ∃ w1 w2 v : Str,
      litAt ("<Published".toList ++ (w1 ++ (['='] ++ (w2 ++ (v ++ ['>']))))) s i = true ∧
      i + 10 + w1.length + 1 + w2.length + v.length = j ∧
      w1.all pySpace = true ∧ w2.all pySpace = true ∧
      v ≠ [] ∧ '\n' ∉ v ∧ '>' ∉ v.drop 1 := by
  have hpl : ("<Published".toList).length = 10 := by decide
  unfold pubParseEnd at h
  split at h
  case isFalse => exact Option.noConfusion h
  case isTrue hlit =>
  simp only [] at h
  split at h
  case _ heq =>
    have hw1len : ((s.drop (i + 10)).takeWhile pySpace).length =
        wsEnd s (i + 10) - (i + 10) := by
      unfold wsEnd
      omega
    have hw1 : litAt ((s.drop (i + 10)).takeWhile pySpace) s (i + 10) = true := by
      rw [← slice_wsEnd]
      exact litAt_slice s (i + 10) _
    have hw2len : ((s.drop (wsEnd s (i + 10) + 1)).takeWhile pySpace).length =
        wsEnd s (wsEnd s (i + 10) + 1) - (wsEnd s (i + 10) + 1) := by
      unfold wsEnd
      omega
    have hw2 : litAt ((s.drop (wsEnd s (i + 10) + 1)).takeWhile pySpace) s
        (wsEnd s (i + 10) + 1) = true := by
      rw [← slice_wsEnd]
      exact litAt_slice s (wsEnd s (i + 10) + 1) _
    have hk1ge : i + 10 ≤ wsEnd s (i + 10) := wsEnd_ge s (i + 10)
    have hk2ge : wsEnd s (i + 10) + 1 ≤ wsEnd s (wsEnd s (i + 10) + 1) :=
      wsEnd_ge s _
    split at h
    case _ j0 hfs =>
      have hj : j0 = j := Option.some.inj h
      subst hj
      obtain ⟨hge, hlt2, hpred, hmin⟩ := firstSuch_some hfs
      rw [Bool.and_eq_true] at hpred
      have hgt : charAt? s j0 = some '>' := of_decide_eq_true hpred.1
      have hrun : runOk false s (wsEnd s (wsEnd s (i + 10) + 1)) j0 = true := hpred.2
      have hjlt : j0 < s.length := charAt?_lt hgt
      have hvlen : ((s.drop (wsEnd s (wsEnd s (i + 10) + 1))).take
          (j0 - wsEnd s (wsEnd s (i + 10) + 1))).length =
          j0 - wsEnd s (wsEnd s (i + 10) + 1) := slice_length (by omega)
      refine ⟨(s.drop (i + 10)).takeWhile pySpace,
              (s.drop (wsEnd s (i + 10) + 1)).takeWhile pySpace,
              (s.drop (wsEnd s (wsEnd s (i + 10) + 1))).take
                (j0 - wsEnd s (wsEnd s (i + 10) + 1)), ?_, ?_, ?_, ?_, ?_, ?_, ?_⟩
      · refine litAt_concat6 hlit (by rw [hpl]) hw1 ?_ (litAt_singleton.mpr heq)
          rfl hw2 ?_ (litAt_slice s _ _) ?_ (litAt_singleton.mpr hgt)
        · unfold wsEnd
          rfl
        · unfold wsEnd
          rfl
        · rw [hvlen]
          omega
      · rw [hw1len, hw2len, hvlen]
        omega
      · exact takeWhile_all pySpace _
      · exact takeWhile_all pySpace _
      · rw [← List.length_pos_iff_ne_nil, hvlen]
        omega
      · intro hmem
        obtain ⟨k, hka, hkb, hkc⟩ := charAt_of_mem_slice hmem
        have hd := slice_all_charAt hrun hka (by omega) hkc
        simp [dotOk] at hd
      · intro hmem
        have hvd : ((s.drop (wsEnd s (wsEnd s (i + 10) + 1))).take
            (j0 - wsEnd s (wsEnd s (i + 10) + 1))).drop 1 =
            (s.drop (wsEnd s (wsEnd s (i + 10) + 1) + 1)).take
              (j0 - wsEnd s (wsEnd s (i + 10) + 1) - 1) := by
          rw [List.drop_take, List.drop_drop]
        rw [hvd] at hmem
        obtain ⟨k, hka, hkb, hkc⟩ := charAt_of_mem_slice hmem
        have hkj : k < j0 := by omega
        have hrunk : runOk false s (wsEnd s (wsEnd s (i + 10) + 1)) k = true := by
          apply slice_all_of_charAt
          intro k' h1' h2' c' hc'
          exact slice_all_charAt hrun h1' (by omega) hc'
        have hmk := hmin k (by omega) hkj
        simp [hkc, hrunk] at hmk
    case _ hfs =>
      split at h
      case isTrue hcond =>
        obtain ⟨hB1, hB2, hB3⟩ := hcond
        have hj : wsEnd s (wsEnd s (i + 10) + 1) = j := Option.some.inj h
        have hk2lt : wsEnd s (wsEnd s (i + 10) + 1) < s.length := charAt?_lt hB1
        obtain ⟨c, hcc, hcs⟩ := wsEnd_space
          (show wsEnd s (i + 10) + 1 ≤ wsEnd s (wsEnd s (i + 10) + 1) - 1 by omega)
          (show wsEnd s (wsEnd s (i + 10) + 1) - 1 < wsEnd s (wsEnd s (i + 10) + 1)
            by omega)
        have hcnl : c ≠ '\n' := by
          intro hc
          apply hB3
          rw [← hc]
          exact hcc
        have hw2blen : ((s.drop (wsEnd s (i + 10) + 1)).take
            (wsEnd s (wsEnd s (i + 10) + 1) - 1 - (wsEnd s (i + 10) + 1))).length =
            wsEnd s (wsEnd s (i + 10) + 1) - 1 - (wsEnd s (i + 10) + 1) :=
          slice_length (by omega)
        have hw2b : litAt ((s.drop (wsEnd s (i + 10) + 1)).take
            (wsEnd s (wsEnd s (i + 10) + 1) - 1 - (wsEnd s (i + 10) + 1))) s
            (wsEnd s (i + 10) + 1) = true := litAt_slice s _ _
        refine ⟨(s.drop (i + 10)).takeWhile pySpace,
                (s.drop (wsEnd s (i + 10) + 1)).take
                  (wsEnd s (wsEnd s (i + 10) + 1) - 1 - (wsEnd s (i + 10) + 1)),
                [c], ?_, ?_, ?_, ?_, ?_, ?_, ?_⟩
        · refine litAt_concat6 hlit (by rw [hpl]) hw1 ?_ (litAt_singleton.mpr heq)
            rfl hw2b ?_ (litAt_singleton.mpr hcc) ?_
            (litAt_singleton.mpr hB1)
          · unfold wsEnd
            rfl
          · rw [show ((['='] : Str)).length = 1 from rfl, hw2blen]
            omega
          · rw [show ([c] : Str).length = 1 from rfl]
            omega
        · rw [hw1len, hw2blen, show ([c] : Str).length = 1 from rfl]
          omega
        · exact takeWhile_all pySpace _
        · apply slice_all_of_charAt
          intro k h1' h2' c' hc'
          obtain ⟨c'', hcc'', hcs''⟩ := wsEnd_space h1'
            (show k < wsEnd s (wsEnd s (i + 10) + 1) by omega)
          rw [hcc''] at hc'
          rw [← Option.some.inj hc']
          exact hcs''
        · simp
        · intro hm
          simp at hm
          exact hcnl hm.symm
        · simp
      case isFalse => exact Option.noConfusion h
  case _ hne =>
    exact Option.noConfusion h

theorem litAt_run_space {w s : Str} {a k : Nat} (hlit : litAt w s a = true)
    (hws : w.all pySpace = true) (h1 : a ≤ k) (h2 : k < a + w.length) :
    ∃ c, charAt? s k = some c ∧ pySpace c = true := by
  have hidx : k - a < w.length := by omega
  have hget := litAt_charAt hlit hidx
  rw [show a + (k - a) = k from by omega] at hget
  rw [List.getElem?_eq_getElem hidx] at hget
  refine ⟨_, hget, ?_⟩
  rw [List.all_eq_true] at hws
  exact hws _ (List.getElem_mem hidx)

theorem litAt_mem_charAt {w s : Str} {a k : Nat} (h : litAt w s a = true)
    (hk : k < w.length) : ∃ c, charAt? s (a + k) = some c ∧ c ∈ w := by
  have hg := litAt_charAt h hk
  rw [List.getElem?_eq_getElem hk] at hg
  exact ⟨_, hg, List.getElem_mem hk⟩

theorem litAt_head {c0 : Char} {w s : Str} {a : Nat}
    (h : litAt (c0 :: w) s a = true) : charAt? s a = some c0 := by
  have hg := litAt_charAt h (k := 0) (by simp)
  simpa using hg

theorem pubParseEnd_isSome_of_marker {s : Str} {i : Nat} (w1 w2 v : Str)
    (hconcat : litAt ("<Published".toList ++ (w1 ++ (['='] ++ (w2 ++ (v ++ ['>'])))))
      s i = true)
    (hw1 : w1.all pySpace = true) (hw2 : w2.all pySpace = true)
    (hv : v ≠ []) (hvn : '\n' ∉ v) :
    (pubParseEnd s i).isSome = true := by
  have hpl : ("<Published".toList).length = 10 := by decide
  rw [litAt_append] at hconcat
  obtain ⟨hlit, hrest⟩ := hconcat
  rw [hpl, litAt_append] at hrest
  obtain ⟨hw1l, hrest⟩ := hrest
  rw [litAt_append] at hrest
  obtain ⟨heql, hrest⟩ := hrest
  rw [show ((['='] : Str)).length = 1 from rfl, litAt_append] at hrest
  obtain ⟨hw2l, hrest⟩ := hrest
  rw [litAt_append] at hrest
  obtain ⟨hvl, hgtl⟩ := hrest
  have hv1 : 1 ≤ v.length := by
    cases v with
    | nil => exact absurd rfl hv
    | cons a b => simp
  have hk1 : wsEnd s (i + 10) = i + 10 + w1.length := by
    apply wsEnd_eq_of_run
    · intro k h1 h2
      exact litAt_run_space hw1l hw1 h1 h2
    · intro c hc
      rw [litAt_singleton.mp heql] at hc
      rw [← Option.some.inj hc]
      decide
  have heq' : charAt? s (wsEnd s (i + 10)) = some '=' := by
    rw [hk1]
    exact litAt_singleton.mp heql
  unfold pubParseEnd
  rw [if_pos hlit]
  simp only []
  rw [heq']
  simp only []
  cases hvr : v.dropWhile pySpace with
  | nil =>
    have hvall : v.all pySpace = true := by
      rw [List.all_eq_true]
      exact List.dropWhile_eq_nil_iff.mp hvr
    have hk2 : wsEnd s (wsEnd s (i + 10) + 1) =
        i + 10 + w1.length + 1 + w2.length + v.length := by
      rw [hk1]
      have h := @wsEnd_eq_of_run s (i + 10 + w1.length + 1)
        (w2.length + v.length) ?_ ?_
      · rw [h]
        omega
      · intro k h1 h2
        by_cases hkw : k < i + 10 + w1.length + 1 + w2.length
        · exact litAt_run_space hw2l hw2 h1 hkw
        · exact litAt_run_space hvl hvall (by omega) (by omega)
      · intro c hc
        rw [show i + 10 + w1.length + 1 + (w2.length + v.length) =
          i + 10 + w1.length + 1 + w2.length + v.length from by omega] at hc
        rw [litAt_singleton.mp hgtl] at hc
        rw [← Option.some.inj hc]
        decide
    cases hfs : firstSuch (fun j => decide (charAt? s j = some '>') &&
        runOk false s (wsEnd s (wsEnd s (i + 10) + 1)) j)
        (wsEnd s (wsEnd s (i + 10) + 1) + 1) s.length with
    | some j0 => rfl
    | none =>
      rw [if_pos ?_]
      · rfl
      · refine ⟨?_, ?_, ?_⟩
        · rw [hk2]
          exact litAt_singleton.mp hgtl
        · rw [hk2, hk1]
          omega
        · rw [hk2]
          obtain ⟨c, hcc, hcm⟩ := litAt_mem_charAt hvl
            (show v.length - 1 < v.length by omega)
          rw [show i + 10 + w1.length + 1 + w2.length + (v.length - 1) =
            i + 10 + w1.length + 1 + w2.length + v.length - 1 from by omega] at hcc
          rw [hcc]
          intro hcn
          exact hvn (Option.some.inj hcn ▸ hcm)
  | cons c0 vr' =>
    have hvw : v = v.takeWhile pySpace ++ v.dropWhile pySpace :=
      (List.takeWhile_append_dropWhile pySpace v).symm
    have hvl2 : litAt (v.takeWhile pySpace ++ (c0 :: vr')) s
        (i + 10 + w1.length + 1 + w2.length) = true := by
      rw [← hvr, ← hvw]
      exact hvl
    rw [litAt_append] at hvl2
    obtain ⟨hvwl, hvrl⟩ := hvl2
    have hc0 : charAt? s (i + 10 + w1.length + 1 + w2.length +
        (v.takeWhile pySpace).length) = some c0 := litAt_head hvrl
    have hc0ns : pySpace c0 = false := by
      apply dropWhile_head_not pySpace v
      rw [hvr]
      rfl
    have hk2 : wsEnd s (wsEnd s (i + 10) + 1) =
        i + 10 + w1.length + 1 + w2.length + (v.takeWhile pySpace).length := by
      rw [hk1]
      have h := @wsEnd_eq_of_run s (i + 10 + w1.length + 1)
        (w2.length + (v.takeWhile pySpace).length) ?_ ?_
      · rw [h]
        omega
      · intro k h1 h2
        by_cases hkw : k < i + 10 + w1.length + 1 + w2.length
        · exact litAt_run_space hw2l hw2 h1 hkw
        · exact litAt_run_space hvwl (takeWhile_all pySpace v) (by omega) (by omega)
      · intro c hc
        rw [show i + 10 + w1.length + 1 + (w2.length + (v.takeWhile pySpace).length) =
          i + 10 + w1.length + 1 + w2.length + (v.takeWhile pySpace).length
          from by omega] at hc
        rw [hc0] at hc
        rw [← Option.some.inj hc]
        exact hc0ns
    have hvrlen : (v.takeWhile pySpace).length + (c0 :: vr').length = v.length := by
      rw [← List.length_append, ← hvr, ← hvw]
    have hgt0 : charAt? s (i + 10 + w1.length + 1 + w2.length +
        (v.takeWhile pySpace).length + (c0 :: vr').length) = some '>' := by
      rw [show i + 10 + w1.length + 1 + w2.length + (v.takeWhile pySpace).length +
        (c0 :: vr').length = i + 10 + w1.length + 1 + w2.length + v.length
        from by omega]
      exact litAt_singleton.mp hgtl
    have hrun0 : runOk false s (wsEnd s (wsEnd s (i + 10) + 1))
        (i + 10 + w1.length + 1 + w2.length + (v.takeWhile pySpace).length +
          (c0 :: vr').length) = true := by
      rw [hk2]
      unfold runOk
      apply slice_all_of_charAt
      intro k h1 h2 c hc
      have hmem : ∃ cc, charAt? s k = some cc ∧ cc ∈ (c0 :: vr') := by
        obtain ⟨cc, hcc, hcm⟩ := litAt_mem_charAt hvrl
          (show k - (i + 10 + w1.length + 1 + w2.length +
            (v.takeWhile pySpace).length) < (c0 :: vr').length by omega)
        rw [show i + 10 + w1.length + 1 + w2.length + (v.takeWhile pySpace).length +
          (k - (i + 10 + w1.length + 1 + w2.length + (v.takeWhile pySpace).length)) = k
          from by omega] at hcc
        exact ⟨cc, hcc, hcm⟩
      obtain ⟨cc, hcc, hcm⟩ := hmem
      rw [hcc] at hc
      rw [← Option.some.inj hc]
      have hcv : cc ∈ v := by
        rw [hvw, hvr]
        exact List.mem_append_right _ hcm
      have : cc ≠ '\n' := fun hne => hvn (hne ▸ hcv)
      simp [dotOk, this]
    have hiss : (firstSuch (fun j => decide (charAt? s j = some '>') &&
        runOk false s (wsEnd s (wsEnd s (i + 10) + 1)) j)
        (wsEnd s (wsEnd s (i + 10) + 1) + 1) s.length).isSome = true := by
      apply firstSuch_isSome (k := i + 10 + w1.length + 1 + w2.length +
        (v.takeWhile pySpace).length + (c0 :: vr').length)
      · rw [hk2]
        simp only [List.length_cons]
        omega
      · have hlt := charAt?_lt hgt0
        omega
      · rw [hgt0, hrun0]
        simp
    cases hfs : firstSuch (fun j => decide (charAt? s j = some '>') &&
        runOk false s (wsEnd s (wsEnd s (i + 10) + 1)) j)
        (wsEnd s (wsEnd s (i + 10) + 1) + 1) s.length with
    | some j0 => rfl
    | none =>
      rw [hfs] at hiss
      simp at hiss

theorem pubMarkerAt_of_parse {s : Str} {i j : Nat} (h : pubParseEnd s i = some j) :
    PubMarkerAt s i j := by
  obtain ⟨w1, w2, v, hc, hs, h1, h2, h3, h4, _⟩ := pubParseEnd_decomp h
  exact ⟨w1, w2, v, hc, hs, h1, h2, h3, h4⟩

theorem parse_isSome_of_pubMarkerAt {s : Str} {i j : Nat} (h : PubMarkerAt s i j) :
    (pubParseEnd s i).isSome = true := by
  obtain ⟨w1, w2, v, hc, _, h1, h2, h3, h4⟩ := h
  exact pubParseEnd_isSome_of_marker w1 w2 v hc h1 h2 h3 h4

/-- Claim C5 counterexample: the returned match can contain `>` before its
final character: on `<Published =>>` the greedy whitespace run after `=` is
empty and `.+?` consumes the first `>`, so the returned match is the whole
`<Published =>>`, whose second-to-last character is `>`. -/
theorem c5_internal_gt_counterexample :
    extract_pub_date ("<Published =>>".toList) = some ("<Published =>>".toList) ∧
    '>' ∈ ("<Published =>>".toList).dropLast := by
  constructor
  · rfl
  · decide

/-- Claim C5 as amended: whenever `extract_pub_date` returns a match `m`,
`m` is the verbatim slice of the input at the leftmost position admitting a
publication marker (`PubMarkerAt`; no marker occurs at any earlier
position), and `m` decomposes as `<Published`, whitespace, `=`, whitespace,
then a nonempty newline-free value followed by the closing `>`, where the
value contains no `>` after its first character (the first value character
can be `>`, as the counterexample shows); and it returns `None` exactly
when no position of the input admits a marker. -/
theorem c5_amended_pub_date (s : Str) :
    (∀ m, extract_pub_date s = some m →
       ∃ i j, m = (s.drop i).take (j + 1 - i) ∧ PubMarkerAt s i j ∧
         (∀ i', (∃ j', PubMarkerAt s i' j') → i ≤ i') ∧
         ∃ w1 w2 v : Str,
           m = "<Published".toList ++ (w1 ++ (['='] ++ (w2 ++ (v ++ ['>'])))) ∧
           w1.all pySpace = true ∧ w2.all pySpace = true ∧ v ≠ [] ∧
           '\n' ∉ v ∧ '>' ∉ v.drop 1) ∧
    (extract_pub_date s = none ↔ ∀ i j, ¬ PubMarkerAt s i j) := by
  have hpl : ("<Published".toList).length = 10 := by decide
  constructor
  · intro m hm
    unfold extract_pub_date at hm
    cases hifs : firstSuch (fun i => (pubParseEnd s i).isSome) 0 (s.length + 1) with
    | none => rw [hifs] at hm; exact Option.noConfusion hm
    | some i0 =>
      rw [hifs] at hm
      simp only [Option.some_bind] at hm
      cases hpe : pubParseEnd s i0 with
      | none => rw [hpe] at hm; exact Option.noConfusion hm
      | some j0 =>
        rw [hpe] at hm
        simp only [Option.map_some', Option.some.injEq] at hm
        obtain ⟨_, _, hpred, hmin⟩ := firstSuch_some hifs
        obtain ⟨w1, w2, v, hc, hsum, hws1, hws2, hvne, hvnl, hvgt⟩ :=
          pubParseEnd_decomp hpe
        have hclen : ("<Published".toList ++
            (w1 ++ (['='] ++ (w2 ++ (v ++ ['>']))))).length = j0 + 1 - i0 := by
          simp only [List.length_append, hpl, List.length_cons, List.length_nil]
          omega
        refine ⟨i0, j0, hm.symm, pubMarkerAt_of_parse hpe, ?_, w1, w2, v, ?_,
          hws1, hws2, hvne, hvnl, hvgt⟩
        · intro i' ⟨j', hmark⟩
          by_contra hlt
          push_neg at hlt
          have hfalse := hmin i' (Nat.zero_le i') hlt
          rw [parse_isSome_of_pubMarkerAt hmark] at hfalse
          exact Bool.noConfusion hfalse
        · rw [← hm, ← hclen]
          exact slice_of_litAt hc
  · constructor
    · intro hnone i j hmark
      unfold extract_pub_date at hnone
      cases hifs : firstSuch (fun i => (pubParseEnd s i).isSome) 0 (s.length + 1) with
      | some i0 =>
        rw [hifs] at hnone
        simp only [Option.some_bind] at hnone
        obtain ⟨_, _, hpred, _⟩ := firstSuch_some hifs
        cases hpe : pubParseEnd s i0 with
        | none => rw [hpe] at hpred; exact Bool.noConfusion hpred
        | some j0 =>
          rw [hpe] at hnone
          simp only [Option.map_some'] at hnone
          exact Option.noConfusion hnone
      | none =>
        obtain ⟨w1, w2, v, hc, -, -⟩ := id hmark
        have hi : i + 10 ≤ s.length := by
          rw [litAt_append] at hc
          have := litAt_bound (by decide) hc.1
          omega
        have hfalse := firstSuch_none hifs i (Nat.zero_le i) (by omega)
        rw [parse_isSome_of_pubMarkerAt hmark] at hfalse
        exact Bool.noConfusion hfalse
    · intro hno
      unfold extract_pub_date
      rw [firstSuch_none_of ?_]
      · rfl
      · intro k hk1 hk2
        cases hpe : pubParseEnd s k with
        | none => rfl
        | some j0 => exact absurd (pubMarkerAt_of_parse hpe) (hno k j0)

/-- Witness for C5: the amended theorem applied to the concrete input
`a<Published = 2016>b`, whose returned match is `<Published = 2016>`. -/
theorem c5_amended_pub_date_witness :
    ∃ i j, ("<Published = 2016>".toList) =
        (("a<Published = 2016>b".toList).drop i).take (j + 1 - i) ∧
      PubMarkerAt ("a<Published = 2016>b".toList) i j ∧
      (∀ i', (∃ j', PubMarkerAt ("a<Published = 2016>b".toList) i' j') → i ≤ i') ∧
      ∃ w1 w2 v : Str,
        ("<Published = 2016>".toList) =
          "<Published".toList ++ (w1 ++ (['='] ++ (w2 ++ (v ++ ['>'])))) ∧
        w1.all pySpace = true ∧ w2.all pySpace = true ∧ v ≠ [] ∧
        '\n' ∉ v ∧ '>' ∉ v.drop 1 :=
  (c5_amended_pub_date ("a<Published = 2016>b".toList)).1
    ("<Published = 2016>".toList) rfl
